import Mathlib

set_option maxHeartbeats 1000000

namespace LocalRepository

/-! # A verified model of the local-storage repository

The repository implements logical collections ("buckets") on top of the
browser's flat string-keyed `localStorage`.  The store is modelled as an
association list from keys to values; `getItem`, `setItem` and `removeItem`
mirror the host store's point operations. -/

/-- The flat string-keyed store backing the repository (`window.localStorage`),
modelled as an association list from keys to values. -/
abbrev Store := List (String × String)

/-- `localStorage.getItem`: the value stored under `k`, or `none` when absent. -/
def getItem : Store → String → Option String
  | [], _ => none
  | (k', v) :: rest, k => if k = k' then some v else getItem rest k

/-- `localStorage.removeItem`: delete the entry stored under `k`, if any. -/
def removeItem : Store → String → Store
  | [], _ => []
  | (k', v) :: rest, k =>
    if k = k' then removeItem rest k else (k', v) :: removeItem rest k

/-- `localStorage.setItem`: store `v` under `k`, replacing any previous entry. -/
def setItem (s : Store) (k v : String) : Store := removeItem s k ++ [(k, v)]

/-- The store in its initial, empty state. -/
def emptyStore : Store := []

theorem getItem_append (a b : Store) (k : String) :
    getItem (a ++ b) k =
      match getItem a k with
      | some v => some v
      | none => getItem b k := by
  induction a with
  | nil => simp [getItem]
  | cons p rest ih =>
    obtain ⟨k', v⟩ := p
    by_cases h : k = k' <;> simp [getItem, h, ih]

theorem getItem_removeItem (s : Store) (k k' : String) :
    getItem (removeItem s k) k' = if k' = k then none else getItem s k' := by
  induction s with
  | nil => simp [getItem, removeItem]
  | cons p rest ih =>
    obtain ⟨k0, v⟩ := p
    simp only [removeItem]
    by_cases h : k = k0
    · rw [if_pos h, ih]
      by_cases h' : k' = k
      · rw [if_pos h', if_pos h']
      · rw [if_neg h', if_neg h']
        have hk0 : ¬k' = k0 := h ▸ h'
        simp [getItem, hk0]
    · rw [if_neg h]
      by_cases h' : k' = k0
      · subst h'
        have hk : ¬k' = k := fun hh => h hh.symm
        simp [getItem, hk]
      · simp [getItem, h', ih]

theorem getItem_setItem (s : Store) (k v k' : String) :
    getItem (setItem s k v) k' = if k' = k then some v else getItem s k' := by
  unfold setItem
  rw [getItem_append, getItem_removeItem]
  by_cases h : k' = k
  · rw [if_pos h, if_pos h]
    simp [getItem, h]
  · rw [if_neg h, if_neg h]
    cases hg : getItem s k' <;> simp [hg, getItem, h]

/-! ## The membership-list string format

Bucket membership lists are stored as a single comma-joined string
(`keyList.join(',')`) and read back with `res.split(',')`.  `splitCommaChars`
and `joinCommaChars` give the JavaScript semantics of these two operations on
character lists: `"".split(',')` is `[""]`, and splitting never loses empty
pieces. -/

def splitCommaChars : List Char → List (List Char)
  | [] => [[]]
  | c :: rest =>
    if c = ',' then [] :: splitCommaChars rest
    else
      match splitCommaChars rest with
      | [] => [[c]]
      | p :: ps => (c :: p) :: ps

def joinCommaChars : List (List Char) → List Char
  | [] => []
  | [l] => l
  | l :: l2 :: ls => l ++ ',' :: joinCommaChars (l2 :: ls)

theorem splitCommaChars_ne_nil (l : List Char) : splitCommaChars l ≠ [] := by
  induction l with
  | nil => simp [splitCommaChars]
  | cons c rest ih =>
    by_cases h : c = ','
    · simp [splitCommaChars, h]
    · simp only [splitCommaChars, h, if_false]
      cases hs : splitCommaChars rest with
      | nil => simp
      | cons p ps => simp

theorem splitCommaChars_no_comma (l : List Char) (h : ',' ∉ l) :
    splitCommaChars l = [l] := by
  induction l with
  | nil => simp [splitCommaChars]
  | cons c rest ih =>
    have hc : ¬c = ',' := by
      intro hc
      exact h (by rw [hc]; exact List.mem_cons_self _ _)
    have hr : ',' ∉ rest := fun hr => h (List.mem_cons_of_mem _ hr)
    simp only [splitCommaChars, if_neg hc, ih hr]

theorem splitCommaChars_append_comma (l t : List Char) (h : ',' ∉ l) :
    splitCommaChars (l ++ ',' :: t) = l :: splitCommaChars t := by
  induction l with
  | nil => simp [splitCommaChars]
  | cons c rest ih =>
    have hc : ¬c = ',' := by
      intro hc
      exact h (by rw [hc]; exact List.mem_cons_self _ _)
    have hr : ',' ∉ rest := fun hr => h (List.mem_cons_of_mem _ hr)
    simp only [List.cons_append, splitCommaChars, List.append_eq, if_neg hc,
      ih hr]

theorem splitCommaChars_mem_no_comma (l : List Char) :
    ∀ p ∈ splitCommaChars l, ',' ∉ p := by
  induction l with
  | nil =>
    intro p hp
    simp [splitCommaChars] at hp
    simp [hp]
  | cons c rest ih =>
    intro p hp
    by_cases h : c = ','
    · subst h
      simp only [splitCommaChars, if_pos rfl] at hp
      rcases List.mem_cons.mp hp with h1 | h1
      · simp [h1]
      · exact ih p h1
    · cases hs : splitCommaChars rest with
      | nil => exact absurd hs (splitCommaChars_ne_nil rest)
      | cons p0 ps =>
        simp only [splitCommaChars, if_neg h, hs] at hp
        rcases List.mem_cons.mp hp with h1 | h1
        · subst h1
          intro hm
          rcases List.mem_cons.mp hm with h2 | h2
          · exact h h2.symm
          · exact ih p0 (by rw [hs]; exact List.mem_cons_self _ _) h2
        · exact ih p (by rw [hs]; exact List.mem_cons_of_mem _ h1)

theorem splitCommaChars_joinCommaChars (ls : List (List Char)) (h1 : ls ≠ [])
    (h2 : ∀ l ∈ ls, ',' ∉ l) : splitCommaChars (joinCommaChars ls) = ls := by
  induction ls with
  | nil => exact absurd rfl h1
  | cons l rest ih =>
    cases rest with
    | nil =>
      simp only [joinCommaChars]
      exact splitCommaChars_no_comma l (h2 l (List.mem_cons_self _ _))
    | cons l2 ls2 =>
      simp only [joinCommaChars]
      rw [splitCommaChars_append_comma _ _ (h2 l (List.mem_cons_self _ _))]
      rw [ih (by simp) (fun x hx => h2 x (List.mem_cons_of_mem _ hx))]

/-- `String.mk` is a left inverse of `String.data`. -/
theorem mk_data (s : String) : String.mk s.data = s := rfl

/-- JavaScript `s.split(',')`. -/
def jsSplitComma (s : String) : List String :=
  (splitCommaChars s.data).map String.mk

/-- JavaScript `keyList.join(',')`. -/
def jsJoinComma (l : List String) : String :=
  String.mk (joinCommaChars (l.map String.data))

theorem jsSplitComma_jsJoinComma (l : List String) (h1 : l ≠ [])
    (h2 : ∀ x ∈ l, ',' ∉ x.data) : jsSplitComma (jsJoinComma l) = l := by
  unfold jsSplitComma jsJoinComma
  rw [splitCommaChars_joinCommaChars]
  · rw [List.map_map]
    have : (String.mk ∘ String.data) = id := by
      funext s
      exact mk_data s
    rw [this, List.map_id]
  · simp [h1]
  · intro x hx
    rcases List.mem_map.mp hx with ⟨y, hy, rfl⟩
    exact h2 y hy

theorem jsSplitComma_mem_no_comma (r : String) :
    ∀ k ∈ jsSplitComma r, ',' ∉ k.data := by
  intro k hk
  rcases List.mem_map.mp hk with ⟨p, hp, rfl⟩
  exact splitCommaChars_mem_no_comma r.data p hp

/-! ## Rendering numbers

`n.toString(base)` for a natural number: repeated division collects the
digits little-endian; rendering reverses them.  The recursion is fuelled by
`n` itself so that the definition is structural and computes by reduction. -/

def natDigitsAux (b : Nat) : Nat → Nat → List Nat
  | 0, _ => []
  | fuel + 1, n => if n = 0 then [] else n % b :: natDigitsAux b fuel (n / b)

def digitChar10 : Nat → Char
  | 0 => '0'
  | 1 => '1'
  | 2 => '2'
  | 3 => '3'
  | 4 => '4'
  | 5 => '5'
  | 6 => '6'
  | 7 => '7'
  | 8 => '8'
  | _ => '9'

/-- JavaScript `n.toString(10)` (as a character list). -/
def natChars (n : Nat) : List Char :=
  if n = 0 then ['0'] else (natDigitsAux 10 n n).reverse.map digitChar10

def hexDigitChar : Nat → Char
  | 0 => '0'
  | 1 => '1'
  | 2 => '2'
  | 3 => '3'
  | 4 => '4'
  | 5 => '5'
  | 6 => '6'
  | 7 => '7'
  | 8 => '8'
  | 9 => '9'
  | 10 => 'a'
  | 11 => 'b'
  | 12 => 'c'
  | 13 => 'd'
  | 14 => 'e'
  | _ => 'f'

/-- JavaScript `n.toString(16)` (lowercase hex, as a character list). -/
def hexChars (n : Nat) : List Char :=
  if n = 0 then ['0'] else (natDigitsAux 16 n n).reverse.map hexDigitChar

/-- The numeric value of a little-endian base-10 digit list. -/
def ofDig : List Nat → Nat
  | [] => 0
  | d :: l => d + 10 * ofDig l

theorem ofDig_natDigitsAux (fuel : Nat) :
    ∀ n, n ≤ fuel → ofDig (natDigitsAux 10 fuel n) = n := by
  induction fuel with
  | zero =>
    intro n hn
    interval_cases n
    simp [natDigitsAux, ofDig]
  | succ fuel ih =>
    intro n hn
    by_cases h : n = 0
    · simp [natDigitsAux, h, ofDig]
    · simp only [natDigitsAux, if_neg h, ofDig]
      have h1 : n / 10 < n := Nat.div_lt_self (Nat.pos_of_ne_zero h) (by omega)
      rw [ih (n / 10) (by omega)]
      exact Nat.mod_add_div n 10

theorem natDigitsAux_lt (fuel : Nat) :
    ∀ n, ∀ d ∈ natDigitsAux 10 fuel n, d < 10 := by
  induction fuel with
  | zero => intro n d hd; simp [natDigitsAux] at hd
  | succ fuel ih =>
    intro n d hd
    by_cases h : n = 0
    · simp [natDigitsAux, h] at hd
    · simp only [natDigitsAux, if_neg h] at hd
      rcases List.mem_cons.mp hd with h1 | h1
      · subst h1
        exact Nat.mod_lt _ (by omega)
      · exact ih (n / 10) d h1

theorem digitVal_digitChar10 (d : Nat) (h : d < 10) :
    (digitChar10 d).toNat - 48 = d := by
  interval_cases d <;> decide

theorem isDigit_digitChar10 (d : Nat) (h : d < 10) :
    (digitChar10 d).isDigit = true := by
  interval_cases d <;> decide

/-! ## Parsing primitives

`JSON.parse` is modelled by a recursive-descent parser specialised to the
exact textual shapes that `JSON.stringify` produces for the records stored by
the repository. -/

def digitVal (c : Char) : Nat := c.toNat - 48

def parseNatChars (l : List Char) : Option (Nat × List Char) :=
  let ds := l.takeWhile Char.isDigit
  if ds = [] then none
  else some (ds.foldl (fun a c => 10 * a + digitVal c) 0, l.dropWhile Char.isDigit)

theorem takeWhile_dropWhile_append {p : Char → Bool} :
    ∀ (A B : List Char), (∀ c ∈ A, p c = true) →
      (∀ c, B.head? = some c → p c = false) →
      (A ++ B).takeWhile p = A ∧ (A ++ B).dropWhile p = B := by
  intro A
  induction A with
  | nil =>
    intro B hA hB
    cases B with
    | nil => simp
    | cons c B' =>
      have hc := hB c rfl
      simp [List.takeWhile_cons, List.dropWhile_cons, hc]
  | cons a A' ih =>
    intro B hA hB
    have ha := hA a (List.mem_cons_self _ _)
    have h2 := ih B (fun c hc => hA c (List.mem_cons_of_mem _ hc)) hB
    simp [List.takeWhile_cons, List.dropWhile_cons, ha, h2.1, h2.2]

theorem foldl_rev_digits (D : List Nat) (hD : ∀ d ∈ D, d < 10) :
    ∀ a : Nat,
      (D.reverse.map digitChar10).foldl (fun acc c => 10 * acc + digitVal c) a =
        a * 10 ^ D.length + ofDig D := by
  induction D with
  | nil => intro a; simp [ofDig]
  | cons d D' ih =>
    intro a
    simp only [List.reverse_cons, List.map_append, List.map_cons, List.map_nil,
      List.foldl_append, List.foldl_cons, List.foldl_nil]
    rw [ih (fun x hx => hD x (List.mem_cons_of_mem _ hx)) a]
    unfold digitVal
    rw [digitVal_digitChar10 d (hD d (List.mem_cons_self _ _))]
    simp only [ofDig, List.length_cons, pow_succ]
    ring

theorem natChars_all_digits (n : Nat) : ∀ c ∈ natChars n, c.isDigit = true := by
  intro c hc
  unfold natChars at hc
  by_cases h : n = 0
  · rw [if_pos h] at hc
    simp at hc
    rw [hc]
    decide
  · rw [if_neg h] at hc
    rcases List.mem_map.mp hc with ⟨d, hd, rfl⟩
    exact isDigit_digitChar10 d
      (natDigitsAux_lt n n d (List.mem_reverse.mp hd))

theorem natChars_ne_nil (n : Nat) : natChars n ≠ [] := by
  unfold natChars
  by_cases h : n = 0
  · simp [h]
  · rw [if_neg h]
    cases hn : n with
    | zero => exact absurd hn h
    | succ m =>
      simp only [natDigitsAux, if_neg h]
      simp

theorem parseNatChars_natChars (n : Nat) (r : List Char)
    (hr : ∀ c, r.head? = some c → c.isDigit = false) :
    parseNatChars (natChars n ++ r) = some (n, r) := by
  have hsplit := takeWhile_dropWhile_append (natChars n) r
    (natChars_all_digits n) hr
  unfold parseNatChars
  simp only [hsplit.1, hsplit.2, if_neg (natChars_ne_nil n)]
  unfold natChars
  by_cases h : n = 0
  · simp [h, digitVal]
  · rw [if_neg h]
    rw [foldl_rev_digits (natDigitsAux 10 n n) (natDigitsAux_lt n n) 0]
    rw [ofDig_natDigitsAux n n (le_refl n)]
    simp

/-! ## JSON string escaping

`JSON.stringify` escapes the quote and backslash characters; all other
characters are emitted verbatim (control-character escapes are not
exercised by the repository's keys and are not modelled). -/

def escChar (c : Char) : List Char :=
  if c = '"' ∨ c = '\\' then ['\\', c] else [c]

def escChars : List Char → List Char
  | [] => []
  | c :: rest => escChar c ++ escChars rest

/-- Parse a JSON string body up to and including the closing quote, undoing
the escaping.  The recursion is fuelled so that it is structural; one unit
of fuel is consumed per emitted character. -/
def parseStrBodyFuel : Nat → List Char → Option (List Char × List Char)
  | 0, _ => none
  | _ + 1, [] => none
  | fuel + 1, c :: rest =>
    if c = '"' then some ([], rest)
    else if c = '\\' then
      rest.head?.bind fun d =>
        (parseStrBodyFuel fuel rest.tail).map fun p => (d :: p.1, p.2)
    else (parseStrBodyFuel fuel rest).map fun p => (c :: p.1, p.2)

def parseStrBody (l : List Char) : Option (List Char × List Char) :=
  parseStrBodyFuel l.length l

theorem parseStrBodyFuel_escChars (s : List Char) :
    ∀ (fuel : Nat) (r : List Char), (escChars s).length + 1 ≤ fuel →
      parseStrBodyFuel fuel (escChars s ++ '"' :: r) = some (s, r) := by
  induction s with
  | nil =>
    intro fuel r hf
    obtain ⟨f, rfl⟩ : ∃ f, fuel = f + 1 := ⟨fuel - 1, by omega⟩
    rfl
  | cons c s' ih =>
    intro fuel r hf
    by_cases h : c = '"' ∨ c = '\\'
    · have hlen : (escChars (c :: s')).length = 2 + (escChars s').length := by
        simp [escChars, escChar, if_pos h]
        omega
      obtain ⟨f, rfl⟩ : ∃ f, fuel = f + 1 + 1 := ⟨fuel - 2, by omega⟩
      simp only [escChars, escChar, if_pos h, List.cons_append,
        List.nil_append, List.append_assoc]
      show (parseStrBodyFuel (f + 1) (escChars s' ++ '"' :: r)).map
        (fun p => (c :: p.1, p.2)) = some (c :: s', r)
      rw [ih (f + 1) r (by rw [hlen] at hf; omega)]
      rfl
    · have hc1 : ¬c = '"' := fun hx => h (Or.inl hx)
      have hc2 : ¬c = '\\' := fun hx => h (Or.inr hx)
      have hlen : (escChars (c :: s')).length = 1 + (escChars s').length := by
        simp [escChars, escChar, if_neg h]
        omega
      obtain ⟨f, rfl⟩ : ∃ f, fuel = f + 1 := ⟨fuel - 1, by omega⟩
      simp only [escChars, escChar, if_neg h, List.cons_append,
        List.nil_append]
      simp only [parseStrBodyFuel, if_neg hc1, if_neg hc2]
      rw [ih f r (by rw [hlen] at hf; omega)]
      rfl

theorem parseStrBody_escChars (s r : List Char) :
    parseStrBody (escChars s ++ '"' :: r) = some (s, r) := by
  unfold parseStrBody
  apply parseStrBodyFuel_escChars
  simp

/-- Match an expected literal fragment and return the remaining input. -/
def expectChars : List Char → List Char → Option (List Char)
  | [], input => some input
  | _ :: _, [] => none
  | c :: cs, d :: ds => if c = d then expectChars cs ds else none

theorem expectChars_append (lit r : List Char) :
    expectChars lit (lit ++ r) = some r := by
  induction lit with
  | nil => simp [expectChars]
  | cons c cs ih => simp [expectChars, ih]

def boolChars (b : Bool) : List Char :=
  if b then "true".data else "false".data

def parseBoolChars (l : List Char) : Option (Bool × List Char) :=
  match expectChars "true".data l with
  | some r => some (true, r)
  | none =>
    match expectChars "false".data l with
    | some r => some (false, r)
    | none => none

theorem parseBoolChars_boolChars (b : Bool) (r : List Char) :
    parseBoolChars (boolChars b ++ r) = some (b, r) := by
  cases b <;> rfl

/-! ## The stored record types

The record types come from the external `dlc-lib` package and the host
environment, which the spec describes as consumed capability: an enumeration
of contract states, a structural type for UTXO and contract records, and a
function deriving a canonical identifier from a contract record. -/

/-- Modelled from the spec: the contract state enumeration supplied by
`dlc-lib` (Offered, Accepted, Signed, Confirmed, Closed, …), serialized by
its numeric code. -/
inductive ContractState
  | Offered
  | Accepted
  | Signed
  | Confirmed
  | Closed
  deriving DecidableEq, Repr

def stateCode : ContractState → Nat
  | .Offered => 0
  | .Accepted => 1
  | .Signed => 2
  | .Confirmed => 3
  | .Closed => 4

def stateOfCode : Nat → Option ContractState
  | 0 => some .Offered
  | 1 => some .Accepted
  | 2 => some .Signed
  | 3 => some .Confirmed
  | 4 => some .Closed
  | _ => none

theorem stateOfCode_stateCode (st : ContractState) :
    stateOfCode (stateCode st) = some st := by
  cases st <;> rfl

/-- Modelled from the spec: a UTXO record has at least a transaction id, an
output index, an amount and a reserved flag. -/
structure Utxo where
  txid : String
  vout : Nat
  amount : Nat
  reserved : Bool
  deriving DecidableEq, Repr

/-- Modelled from the spec: a contract record is tagged with a state enum and
carries a `temporaryContractId`; once the contract is accepted it also has a
final `contractId`.  Other payload fields do not influence the repository
logic and are elided. -/
structure AnyContract where
  state : ContractState
  temporaryContractId : String
  contractId : Option String
  deriving DecidableEq, Repr

/-- Modelled from the spec: `getId` (supplied by `dlc-lib`) derives a
contract's canonical identifier — the final `contractId` once it exists,
otherwise the `temporaryContractId`. -/
def getId (c : AnyContract) : String :=
  c.contractId.getD c.temporaryContractId

/-! ## The value codec

`JSON.stringify` / `JSON.parse` specialised to the two structured record
shapes that the repository stores. -/

/-- `JSON.stringify` of a UTXO record. -/
def encodeUtxo (u : Utxo) : String :=
  String.mk ("\x7b\"txid\":\"".data ++ escChars u.txid.data ++
    "\",\"vout\":".data ++ natChars u.vout ++
    ",\"amount\":".data ++ natChars u.amount ++
    ",\"reserved\":".data ++ boolChars u.reserved ++ "\x7d".data)

def decodeUtxoChars (l : List Char) : Option Utxo :=
  (expectChars "\x7b\"txid\":\"".data l).bind fun r1 =>
  (parseStrBody r1).bind fun p1 =>
  (expectChars ",\"vout\":".data p1.2).bind fun r2 =>
  (parseNatChars r2).bind fun p2 =>
  (expectChars (',' :: "\"amount\":".data) p2.2).bind fun r3 =>
  (parseNatChars r3).bind fun p3 =>
  (expectChars (',' :: "\"reserved\":".data) p3.2).bind fun r4 =>
  (parseBoolChars r4).bind fun p4 =>
  (expectChars "\x7d".data p4.2).bind fun r5 =>
  if r5 = [] then some ⟨String.mk p1.1, p2.1, p3.1, p4.1⟩ else none

/-- `JSON.parse` of a UTXO record. -/
def decodeUtxo (s : String) : Option Utxo :=
  decodeUtxoChars s.data

/-- `JSON.stringify` of a contract record; an absent `contractId` field is
omitted from the output, as `JSON.stringify` omits `undefined` fields. -/
def encodeContract (c : AnyContract) : String :=
  String.mk ("\x7b\"state\":".data ++ natChars (stateCode c.state) ++
    ",\"temporaryContractId\":\"".data ++
    escChars c.temporaryContractId.data ++
    (match c.contractId with
     | none => "\"\x7d".data
     | some cid =>
       "\",\"contractId\":\"".data ++ escChars cid.data ++ "\"\x7d".data))

def decodeContractTail (st : ContractState) (temp : List Char) :
    List Char → Option AnyContract
  | '\x7d' :: r2 => if r2 = [] then some ⟨st, String.mk temp, none⟩ else none
  | ',' :: r2 =>
    (expectChars "\"contractId\":\"".data r2).bind fun r3 =>
    (parseStrBody r3).bind fun p =>
    (expectChars "\x7d".data p.2).bind fun r4 =>
    if r4 = [] then some ⟨st, String.mk temp, some (String.mk p.1)⟩ else none
  | _ => none

def decodeContractChars (l : List Char) : Option AnyContract :=
  (expectChars "\x7b\"state\":".data l).bind fun r1 =>
  (parseNatChars r1).bind fun p1 =>
  (stateOfCode p1.1).bind fun st =>
  (expectChars (',' :: "\"temporaryContractId\":\"".data) p1.2).bind fun r2 =>
  (parseStrBody r2).bind fun p2 =>
  decodeContractTail st p2.1 p2.2

/-- `JSON.parse` of a contract record. -/
def decodeContract (s : String) : Option AnyContract :=
  decodeContractChars s.data

theorem expectChars_cons (c0 : Char) (lit r : List Char) :
    expectChars (c0 :: lit) (c0 :: (lit ++ r)) = some r := by
  simp [expectChars, expectChars_append]

theorem expectChars_self (l : List Char) : expectChars l l = some [] := by
  have h := expectChars_append l []
  rwa [List.append_nil] at h

theorem parseNatChars_comma (n : Nat) (x : List Char) :
    parseNatChars (natChars n ++ (',' :: x)) = some (n, ',' :: x) := by
  apply parseNatChars_natChars
  intro c hc
  simp only [List.head?_cons, Option.some.injEq] at hc
  rw [← hc]
  decide

theorem decodeUtxo_encodeUtxo (u : Utxo) :
    decodeUtxo (encodeUtxo u) = some u := by
  have hshape : (encodeUtxo u).data =
      "\x7b\"txid\":\"".data ++ (escChars u.txid.data ++ ('"' ::
        (",\"vout\":".data ++ (natChars u.vout ++ (',' ::
        ("\"amount\":".data ++ (natChars u.amount ++ (',' ::
        ("\"reserved\":".data ++ (boolChars u.reserved ++
        "\x7d".data)))))))))) := by
    show ("\x7b\"txid\":\"".data ++ escChars u.txid.data ++
      "\",\"vout\":".data ++ natChars u.vout ++
      ",\"amount\":".data ++ natChars u.amount ++
      ",\"reserved\":".data ++ boolChars u.reserved ++ "\x7d".data) = _
    rw [show "\",\"vout\":".data = '"' :: ",\"vout\":".data from rfl,
      show ",\"amount\":".data = ',' :: "\"amount\":".data from rfl,
      show ",\"reserved\":".data = ',' :: "\"reserved\":".data from rfl]
    simp [List.append_assoc]
  unfold decodeUtxo decodeUtxoChars
  rw [hshape]
  simp only [expectChars_append, Option.bind, parseStrBody_escChars,
    parseNatChars_comma, expectChars_cons, parseBoolChars_boolChars,
    expectChars_self, mk_data]
  rfl

theorem decodeContract_encodeContract (c : AnyContract) :
    decodeContract (encodeContract c) = some c := by
  cases hcid : c.contractId with
  | none =>
    have hshape : (encodeContract c).data =
        "\x7b\"state\":".data ++ (natChars (stateCode c.state) ++ (',' ::
          ("\"temporaryContractId\":\"".data ++
          (escChars c.temporaryContractId.data ++
          ('"' :: ('\x7d' :: [])))))) := by
      show ("\x7b\"state\":".data ++ natChars (stateCode c.state) ++
        ",\"temporaryContractId\":\"".data ++
        escChars c.temporaryContractId.data ++
        (match c.contractId with
         | none => "\"\x7d".data
         | some cid =>
           "\",\"contractId\":\"".data ++ escChars cid.data ++
             "\"\x7d".data)) = _
      rw [hcid]
      rw [show ",\"temporaryContractId\":\"".data =
        ',' :: "\"temporaryContractId\":\"".data from rfl]
      simp [List.append_assoc]
    unfold decodeContract decodeContractChars
    rw [hshape]
    simp only [expectChars_append, Option.bind, parseNatChars_comma,
      stateOfCode_stateCode, expectChars_cons, parseStrBody_escChars,
      decodeContractTail, mk_data]
    rw [← hcid]
    rfl
  | some cid =>
    have hshape : (encodeContract c).data =
        "\x7b\"state\":".data ++ (natChars (stateCode c.state) ++ (',' ::
          ("\"temporaryContractId\":\"".data ++
          (escChars c.temporaryContractId.data ++ ('"' :: (',' ::
          ("\"contractId\":\"".data ++ (escChars cid.data ++ ('"' ::
          "\x7d".data))))))))) := by
      show ("\x7b\"state\":".data ++ natChars (stateCode c.state) ++
        ",\"temporaryContractId\":\"".data ++
        escChars c.temporaryContractId.data ++
        (match c.contractId with
         | none => "\"\x7d".data
         | some cid =>
           "\",\"contractId\":\"".data ++ escChars cid.data ++
             "\"\x7d".data)) = _
      rw [hcid]
      rw [show ",\"temporaryContractId\":\"".data =
        ',' :: "\"temporaryContractId\":\"".data from rfl,
        show "\",\"contractId\":\"".data =
          '"' :: (',' :: "\"contractId\":\"".data) from rfl,
        show ("\"\x7d".data : List Char) = '"' :: "\x7d".data from rfl]
      simp [List.append_assoc]
    unfold decodeContract decodeContractChars
    rw [hshape]
    simp only [expectChars_append, Option.bind, parseNatChars_comma,
      stateOfCode_stateCode, expectChars_cons, parseStrBody_escChars,
      decodeContractTail, expectChars_self, mk_data]
    rw [← hcid]
    rfl

/-! ## JavaScript object key enumeration

`getAllKeyValuesInBucket` builds a plain object keyed by the bucket's member
keys and the callers iterate it with `for…in`.  ECMA-262 enumerates an
ordinary object's own keys with array-index keys first in ascending numeric
order, then the remaining string keys in insertion order. -/

/-- The numeric reading of an all-digit character list (JS string-to-number
for the array-index test); `none` if empty or not all digits. -/
def charsToNat? (l : List Char) : Option Nat :=
  if l ≠ [] ∧ l.all Char.isDigit then
    some (l.foldl (fun a c => 10 * a + digitVal c) 0)
  else none

/-- JavaScript array-index test: a canonical base-10 numeral below
2^32 − 1. -/
def isArrayIndexKey (s : String) : Bool :=
  match charsToNat? s.data with
  | some n => decide (n < 4294967295) && decide (natChars n = s.data)
  | none => false

def dedupFirstAux (seen : List String) : List String → List String
  | [] => []
  | k :: rest =>
    if k ∈ seen then dedupFirstAux seen rest
    else k :: dedupFirstAux (k :: seen) rest

/-- Object property creation keeps the first occurrence of a repeated key. -/
def dedupFirst (l : List String) : List String := dedupFirstAux [] l

def keyNum (s : String) : Nat := (charsToNat? s.data).getD 0

def insertAsc (x : String) : List String → List String
  | [] => [x]
  | y :: ys => if keyNum x < keyNum y then x :: y :: ys else y :: insertAsc x ys

def sortAsc : List String → List String
  | [] => []
  | x :: xs => insertAsc x (sortAsc xs)

/-- The key order of `for (const key in obj)` for a plain object built by
assigning the given keys in order with `obj[key] = v`.  Assigning the
computed key "__proto__" invokes the inherited `Object.prototype` accessor
and creates no own property, so that key is never enumerated; the own keys
are then listed with array-index keys first in ascending numeric order,
followed by the remaining keys in insertion (property creation) order. -/
def jsRecordKeys (keys : List String) : List String :=
  let own := dedupFirst (keys.filter (fun k => k != "__proto__"))
  sortAsc (own.filter (fun k => isArrayIndexKey k)) ++
    own.filter (fun k => !isArrayIndexKey k)

/-! ## The repository

Each operation of the `LocalRepository` class becomes a function over the
flat store; mutators return the updated store, fallible reads return an
`Except`. -/

def addressBucketTag : String := "addressBucket"
def utxoBucketTag : String := "utxoBucket"
def contractBucketTag : String := "contractBucket"
def keyPairBucketTag : String := "keyPairBucket"
def locationKey : String := "locationKey"

inductive ErrorCode
  | NotFound
  deriving DecidableEq, Repr

/-- `RepositoryError` (from `dlc-lib`) as raised by the repository, or a
thrown `JSON.parse` syntax error. -/
inductive RepoFailure
  | repoError (code : ErrorCode) (message : String)
  | jsonSyntaxError
  deriving DecidableEq, Repr

def notFoundFailure : RepoFailure :=
  .repoError .NotFound "Key not found in db"

/-- `getBucketKeys`: the bucket's membership list, split from the stored
comma-joined string; empty when the bucket tag entry is absent. -/
def getBucketKeys (s : Store) (bucketTag : String) : List String :=
  match getItem s bucketTag with
  | some res => jsSplitComma res
  | none => []

/-- `upsertInBucket`: append the key to the membership list unless already
present (`indexOf === -1`), then store the value under the key. -/
def upsertInBucket (s : Store) (key value bucketTag : String) : Store :=
  let keyList := getBucketKeys s bucketTag
  if key ∈ keyList then setItem s key value
  else setItem (setItem s bucketTag (jsJoinComma (keyList ++ [key]))) key value

/-- `upsertValueInBucket`: serialize the value (`JSON.stringify`) and upsert
the resulting string. -/
def upsertValueInBucket (encode : α → String) (s : Store) (key : String)
    (value : α) (bucketTag : String) : Store :=
  upsertInBucket s key (encode value) bucketTag

/-- `deleteInBucket`: no-op when the key is not a member; otherwise splice it
out of the membership list, delete the bucket tag entry if the list became
empty (re-store it otherwise), and remove the value entry. -/
def deleteInBucket (s : Store) (key bucketTag : String) : Store :=
  let keyList := getBucketKeys s bucketTag
  if key ∈ keyList then
    let keyList2 := keyList.erase key
    let s1 := if keyList2 = [] then removeItem s bucketTag
      else setItem s bucketTag (jsJoinComma keyList2)
    removeItem s1 key
  else s

/-- `getAllKeyValuesInBucket`: the object mapping each member key to
`getItem(key)` (possibly `null`), in `for…in` enumeration order. -/
def getAllKeyValuesInBucket (s : Store) (bucketTag : String) :
    List (String × Option String) :=
  (jsRecordKeys (getBucketKeys s bucketTag)).map (fun k => (k, getItem s k))

def getAllValuesInBucket (s : Store) (bucketTag : String) :
    List (Option String) :=
  (getAllKeyValuesInBucket s bucketTag).map (fun p => p.2)

def getAllKeysInBucket (s : Store) (bucketTag : String) : List String :=
  (getAllKeyValuesInBucket s bucketTag).map (fun p => p.1)

/-- Decode every stored value of a bucket; a missing entry or an undecodable
string models a thrown `JSON.parse` error, failing the whole read. -/
def decodeAll (decode : String → Option α) :
    List (Option String) → Option (List α)
  | [] => some []
  | ov :: rest =>
    match ov.bind decode with
    | none => none
    | some a => (decodeAll decode rest).map (fun l => a :: l)

def getAllValuesInBucketOfType (decode : String → Option α) (s : Store)
    (bucketTag : String) : Option (List α) :=
  decodeAll decode (getAllValuesInBucket s bucketTag)

/-- `getValue`: read a single entry, failing with NotFound when absent. -/
def getValue (s : Store) (key : String) : Except RepoFailure String :=
  match getItem s key with
  | some res => .ok res
  | none => .error notFoundFailure

/-- `getValueOfType`: `getValue` followed by `JSON.parse`. -/
def getValueOfType (decode : String → Option α) (s : Store) (key : String) :
    Except RepoFailure α :=
  match getValue s key with
  | .error e => .error e
  | .ok str =>
    match decode str with
    | some v => .ok v
    | none => .error .jsonSyntaxError

def saveLocation (s : Store) (location : String) : Store :=
  setItem s locationKey location

def getLocation (s : Store) : Option String :=
  getItem s locationKey

def upsertAddress (s : Store) (address privkey : String) : Store :=
  upsertInBucket s address privkey addressBucketTag

def deleteAddress (s : Store) (address : String) : Store :=
  deleteInBucket s address addressBucketTag

def getAddresses (s : Store) : List String :=
  getAllKeysInBucket s addressBucketTag

def getPrivKeyForAddress (s : Store) (address : String) :
    Except RepoFailure String :=
  getValue s address

def upsertKeyPair (s : Store) (publicKey privkey : String) : Store :=
  upsertInBucket s publicKey privkey keyPairBucketTag

def getPrivKeyForPubkey (s : Store) (publicKey : String) :
    Except RepoFailure String :=
  getValue s publicKey

/-- JavaScript `str.padStart(2, '0')`. -/
def padStart2 (l : List Char) : List Char :=
  if l.length < 2 then List.replicate (2 - l.length) '0' ++ l else l

/-- `getUtxoKey`: `utxo.txid + utxo.vout.toString(16).padStart(2, '0')`. -/
def getUtxoKey (txid : String) (vout : Nat) : String :=
  txid ++ String.mk (padStart2 (hexChars vout))

def upsertUtxo (s : Store) (u : Utxo) : Store :=
  upsertInBucket s (getUtxoKey u.txid u.vout) (encodeUtxo u) utxoBucketTag

def deleteUtxo (s : Store) (u : Utxo) : Store :=
  deleteInBucket s (getUtxoKey u.txid u.vout) utxoBucketTag

def getUtxos (s : Store) : Option (List Utxo) :=
  getAllValuesInBucketOfType decodeUtxo s utxoBucketTag

/-- `unreserveUtxo`: read the stored record (NotFound if absent), clear its
reserved flag, re-upsert under the same key.  The failure, if any, occurs
before any write, so the store component is returned untouched then. -/
def unreserveUtxo (s : Store) (txid : String) (vout : Nat) :
    Except RepoFailure Unit × Store :=
  let key := getUtxoKey txid vout
  match getValueOfType decodeUtxo s key with
  | .error e => (.error e, s)
  | .ok utxo =>
    (.ok (),
      upsertValueInBucket encodeUtxo s key
        { utxo with reserved := false } utxoBucketTag)

def createContract (s : Store) (c : AnyContract) : Store :=
  upsertValueInBucket encodeContract s (getId c) c contractBucketTag

def getContract (s : Store) (contractId : String) :
    Except RepoFailure AnyContract :=
  getValueOfType decodeContract s contractId

/-- `hasOneOfState`: `!states || states.includes(contract.state)`. -/
def hasOneOfState (states : Option (List ContractState)) (c : AnyContract) :
    Bool :=
  match states with
  | none => true
  | some l => decide (c.state ∈ l)

structure ContractQuery where
  states : Option (List ContractState)

/-- `getContracts`: all contract-bucket records, filtered by the query's
acceptable states when a query is given. -/
def getContracts (s : Store) (query : Option ContractQuery) :
    Option (List AnyContract) :=
  match getAllValuesInBucketOfType decodeContract s contractBucketTag with
  | none => none
  | some allValues =>
    match query with
    | none => some allValues
    | some q => some (allValues.filter (fun x => hasOneOfState q.states x))

/-- `updateContract`: when the state is Accepted, first delete the record
under the temporary id, then upsert under the current (final) id. -/
def updateContract (s : Store) (c : AnyContract) : Store :=
  let s1 := if c.state = ContractState.Accepted
    then deleteInBucket s c.temporaryContractId contractBucketTag
    else s
  upsertValueInBucket encodeContract s1 (getId c) c contractBucketTag

def deleteContract (s : Store) (contractId : String) : Store :=
  deleteInBucket s contractId contractBucketTag

/-- `hasContract`: a bare existence probe on the flat store. -/
def hasContract (s : Store) (contractId : String) : Bool :=
  (getItem s contractId).isSome

/-! ## Characterizations of the bucket operations -/

theorem getBucketKeys_setItem (s : Store) (k v t : String) :
    getBucketKeys (setItem s k v) t =
      if t = k then jsSplitComma v else getBucketKeys s t := by
  unfold getBucketKeys
  rw [getItem_setItem]
  by_cases h : t = k <;> simp [h]

theorem getBucketKeys_removeItem (s : Store) (k t : String) :
    getBucketKeys (removeItem s k) t =
      if t = k then [] else getBucketKeys s t := by
  unfold getBucketKeys
  rw [getItem_removeItem]
  by_cases h : t = k <;> simp [h]

theorem getBucketKeys_no_comma (s : Store) (t : String) :
    ∀ k ∈ getBucketKeys s t, ',' ∉ k.data := by
  unfold getBucketKeys
  cases h : getItem s t with
  | none => simp
  | some r =>
    intro k hk
    exact jsSplitComma_mem_no_comma r k hk

theorem getItem_upsertInBucket (s : Store) (key v t k : String) :
    getItem (upsertInBucket s key v t) k =
      if k = key then some v
      else if key ∈ getBucketKeys s t then getItem s k
      else if k = t then some (jsJoinComma (getBucketKeys s t ++ [key]))
      else getItem s k := by
  simp only [upsertInBucket]
  by_cases hmem : key ∈ getBucketKeys s t
  · rw [if_pos hmem, getItem_setItem]
    by_cases hk : k = key
    · rw [if_pos hk, if_pos hk]
    · rw [if_neg hk, if_neg hk, if_pos hmem]
  · rw [if_neg hmem, getItem_setItem]
    by_cases hk : k = key
    · rw [if_pos hk, if_pos hk]
    · rw [if_neg hk, if_neg hk, if_neg hmem, getItem_setItem]

theorem getItem_upsertInBucket_self (s : Store) (key v t : String) :
    getItem (upsertInBucket s key v t) key = some v := by
  rw [getItem_upsertInBucket, if_pos rfl]

theorem getItem_upsertInBucket_other (s : Store) (key v t k : String)
    (h1 : k ≠ key) (h2 : k ≠ t) :
    getItem (upsertInBucket s key v t) k = getItem s k := by
  rw [getItem_upsertInBucket, if_neg h1]
  by_cases hmem : key ∈ getBucketKeys s t
  · rw [if_pos hmem]
  · rw [if_neg hmem, if_neg h2]

theorem getBucketKeys_upsertInBucket_self (s : Store) (key v t : String)
    (hck : ',' ∉ key.data) (htk : t ≠ key) :
    getBucketKeys (upsertInBucket s key v t) t =
      if key ∈ getBucketKeys s t then getBucketKeys s t
      else getBucketKeys s t ++ [key] := by
  simp only [upsertInBucket]
  by_cases hmem : key ∈ getBucketKeys s t
  · rw [if_pos hmem, if_pos hmem, getBucketKeys_setItem, if_neg htk]
  · rw [if_neg hmem, if_neg hmem, getBucketKeys_setItem, if_neg htk,
      getBucketKeys_setItem, if_pos rfl]
    refine jsSplitComma_jsJoinComma _ (by simp) ?_
    intro x hx
    rcases List.mem_append.mp hx with h1 | h1
    · exact getBucketKeys_no_comma s t x h1
    · rw [List.mem_singleton.mp h1]
      exact hck

theorem getBucketKeys_upsertInBucket_other (s : Store) (key v t t2 : String)
    (h2 : t2 ≠ key) (h3 : t2 ≠ t) :
    getBucketKeys (upsertInBucket s key v t) t2 = getBucketKeys s t2 := by
  simp only [upsertInBucket]
  by_cases hmem : key ∈ getBucketKeys s t
  · rw [if_pos hmem, getBucketKeys_setItem, if_neg h2]
  · rw [if_neg hmem, getBucketKeys_setItem, if_neg h2,
      getBucketKeys_setItem, if_neg h3]

theorem deleteInBucket_not_mem (s : Store) (key t : String)
    (h : key ∉ getBucketKeys s t) : deleteInBucket s key t = s := by
  simp only [deleteInBucket, if_neg h]

theorem getItem_deleteInBucket (s : Store) (key t k : String)
    (hmem : key ∈ getBucketKeys s t) :
    getItem (deleteInBucket s key t) k =
      if k = key then none
      else if k = t then
        (if (getBucketKeys s t).erase key = [] then none
         else some (jsJoinComma ((getBucketKeys s t).erase key)))
      else getItem s k := by
  simp only [deleteInBucket, if_pos hmem]
  rw [getItem_removeItem]
  by_cases hk : k = key
  · rw [if_pos hk, if_pos hk]
  · rw [if_neg hk, if_neg hk]
    by_cases he : (getBucketKeys s t).erase key = []
    · rw [if_pos he, getItem_removeItem]
      by_cases hkt : k = t
      · rw [if_pos hkt, if_pos hkt, if_pos he]
      · rw [if_neg hkt, if_neg hkt]
    · rw [if_neg he, getItem_setItem]
      by_cases hkt : k = t
      · rw [if_pos hkt, if_pos hkt, if_neg he]
      · rw [if_neg hkt, if_neg hkt]

theorem getBucketKeys_eq_of_getItem_none (s : Store) (t : String)
    (h : getItem s t = none) : getBucketKeys s t = [] := by
  unfold getBucketKeys
  rw [h]

theorem getBucketKeys_eq_of_getItem_some (s : Store) (t r : String)
    (h : getItem s t = some r) : getBucketKeys s t = jsSplitComma r := by
  unfold getBucketKeys
  rw [h]

theorem getBucketKeys_deleteInBucket_self (s : Store) (key t : String)
    (hmem : key ∈ getBucketKeys s t) (htk : t ≠ key) :
    getBucketKeys (deleteInBucket s key t) t =
      (getBucketKeys s t).erase key := by
  have h1 := getItem_deleteInBucket s key t t hmem
  rw [if_neg htk, if_pos rfl] at h1
  by_cases he : (getBucketKeys s t).erase key = []
  · rw [if_pos he] at h1
    rw [getBucketKeys_eq_of_getItem_none _ _ h1, he]
  · rw [if_neg he] at h1
    rw [getBucketKeys_eq_of_getItem_some _ _ _ h1]
    refine jsSplitComma_jsJoinComma _ he ?_
    intro x hx
    exact getBucketKeys_no_comma s t x (List.mem_of_mem_erase hx)

theorem getBucketKeys_deleteInBucket_other (s : Store) (key t t2 : String)
    (h2 : t2 ≠ key) (h3 : t2 ≠ t) :
    getBucketKeys (deleteInBucket s key t) t2 = getBucketKeys s t2 := by
  by_cases hmem : key ∈ getBucketKeys s t
  · unfold getBucketKeys
    rw [getItem_deleteInBucket s key t t2 hmem, if_neg h2, if_neg h3]
  · rw [deleteInBucket_not_mem s key t hmem]

/-! ## The claims -/

/-- C8: for every structured record (UTXO record or contract record),
decoding the encoded string reproduces a record equal to the original:
decode (encode record) = record, where encode is the JSON serialization used
when storing and decode is the JSON parse used when reading. -/
theorem claim8_codec_roundtrip :
    (∀ u : Utxo, decodeUtxo (encodeUtxo u) = some u) ∧
    (∀ c : AnyContract, decodeContract (encodeContract c) = some c) :=
  ⟨decodeUtxo_encodeUtxo, decodeContract_encodeContract⟩

/-- C4: for a bucket containing exactly one member key, deleting that member
removes the bucket tag entry from the flat store entirely (rather than
storing an empty string under the tag), and a subsequent enumeration of the
bucket's members returns the empty sequence. -/
theorem claim4_delete_last_member (s : Store) (bucketTag k : String)
    (h : getBucketKeys s bucketTag = [k]) :
    getItem (deleteInBucket s k bucketTag) bucketTag = none ∧
    getBucketKeys (deleteInBucket s k bucketTag) bucketTag = [] ∧
    getAllKeysInBucket (deleteInBucket s k bucketTag) bucketTag = [] := by
  have hmem : k ∈ getBucketKeys s bucketTag := by
    rw [h]
    exact List.mem_singleton_self k
  have herase : (getBucketKeys s bucketTag).erase k = [] := by
    rw [h]
    simp
  have hnone : getItem (deleteInBucket s k bucketTag) bucketTag = none := by
    have h1 := getItem_deleteInBucket s k bucketTag bucketTag hmem
    by_cases htk : bucketTag = k
    · rwa [if_pos htk] at h1
    · rwa [if_neg htk, if_pos rfl, if_pos herase] at h1
  refine ⟨hnone, getBucketKeys_eq_of_getItem_none _ _ hnone, ?_⟩
  unfold getAllKeysInBucket getAllKeyValuesInBucket
  rw [getBucketKeys_eq_of_getItem_none _ _ hnone]
  rfl

/-- Witness for C4: a concrete one-member address bucket. -/
theorem claim4_witness :
    getBucketKeys (upsertAddress emptyStore "addr1" "priv1")
      addressBucketTag = ["addr1"] ∧
    (getItem (deleteInBucket (upsertAddress emptyStore "addr1" "priv1")
        "addr1" addressBucketTag) addressBucketTag = none ∧
      getBucketKeys (deleteInBucket (upsertAddress emptyStore "addr1" "priv1")
        "addr1" addressBucketTag) addressBucketTag = [] ∧
      getAllKeysInBucket (deleteInBucket
        (upsertAddress emptyStore "addr1" "priv1")
        "addr1" addressBucketTag) addressBucketTag = []) :=
  ⟨by decide, claim4_delete_last_member _ _ _ (by decide)⟩

/-- C3: upserting (key, v1) and then (key, v2) into a bucket leaves the
stored value for the key equal to v2, leaves the membership list exactly as
after the first upsert (no duplication, no reordering), and the key occurs in
it exactly once. -/
theorem claim3_upsert_twice (s : Store) (bucketTag key v1 v2 : String)
    (hck : ',' ∉ key.data) (hkt : bucketTag ≠ key)
    (hcount : (getBucketKeys s bucketTag).count key ≤ 1) :
    getItem (upsertInBucket (upsertInBucket s key v1 bucketTag) key v2
      bucketTag) key = some v2 ∧
    getBucketKeys (upsertInBucket (upsertInBucket s key v1 bucketTag) key v2
        bucketTag) bucketTag =
      getBucketKeys (upsertInBucket s key v1 bucketTag) bucketTag ∧
    (getBucketKeys (upsertInBucket (upsertInBucket s key v1 bucketTag) key v2
        bucketTag) bucketTag).count key = 1 := by
  have hk1 := getBucketKeys_upsertInBucket_self s key v1 bucketTag hck hkt
  by_cases hmem : key ∈ getBucketKeys s bucketTag
  · rw [if_pos hmem] at hk1
    have hmem1 : key ∈ getBucketKeys (upsertInBucket s key v1 bucketTag)
        bucketTag := by
      rw [hk1]
      exact hmem
    have hk2 := getBucketKeys_upsertInBucket_self
      (upsertInBucket s key v1 bucketTag) key v2 bucketTag hck hkt
    rw [if_pos hmem1] at hk2
    refine ⟨getItem_upsertInBucket_self _ _ _ _, hk2, ?_⟩
    rw [hk2, hk1]
    have hpos : 0 < (getBucketKeys s bucketTag).count key :=
      List.count_pos_iff.mpr hmem
    omega
  · rw [if_neg hmem] at hk1
    have hmem1 : key ∈ getBucketKeys (upsertInBucket s key v1 bucketTag)
        bucketTag := by
      rw [hk1]
      exact List.mem_append_right _ (List.mem_singleton_self key)
    have hk2 := getBucketKeys_upsertInBucket_self
      (upsertInBucket s key v1 bucketTag) key v2 bucketTag hck hkt
    rw [if_pos hmem1] at hk2
    refine ⟨getItem_upsertInBucket_self _ _ _ _, hk2, ?_⟩
    rw [hk2, hk1, List.count_append,
      List.count_eq_zero_of_not_mem hmem]
    simp

/-- Witness for C3 at a concrete bucket and key. -/
theorem claim3_witness :
    (',' ∉ "addr1".data ∧ addressBucketTag ≠ "addr1" ∧
      (getBucketKeys emptyStore addressBucketTag).count "addr1" ≤ 1) ∧
    (getItem (upsertInBucket (upsertInBucket emptyStore "addr1" "p1"
        addressBucketTag) "addr1" "p2" addressBucketTag) "addr1" =
      some "p2" ∧
    getBucketKeys (upsertInBucket (upsertInBucket emptyStore "addr1" "p1"
        addressBucketTag) "addr1" "p2" addressBucketTag) addressBucketTag =
      getBucketKeys (upsertInBucket emptyStore "addr1" "p1" addressBucketTag)
        addressBucketTag ∧
    (getBucketKeys (upsertInBucket (upsertInBucket emptyStore "addr1" "p1"
        addressBucketTag) "addr1" "p2" addressBucketTag)
        addressBucketTag).count "addr1" = 1) :=
  ⟨by decide, claim3_upsert_twice emptyStore addressBucketTag "addr1" "p1"
    "p2" (by decide) (by decide) (by decide)⟩

/-- C5: reads of an absent key fail with the NotFound error kind
(`getPrivKeyForAddress`, `getPrivKeyForPubkey`, `getContract`, and the read
step of `unreserveUtxo`), while `hasContract` returns false without throwing
and the bucket-returning reads return an empty sequence on an empty
bucket. -/
theorem claim5_absent_key_errors (s : Store) (k txid : String) (vout : Nat)
    (h : getItem s k = none)
    (hu : getItem s (getUtxoKey txid vout) = none)
    (ha : getItem s addressBucketTag = none)
    (hub : getItem s utxoBucketTag = none)
    (hcb : getItem s contractBucketTag = none) :
    getPrivKeyForAddress s k = .error notFoundFailure ∧
    getPrivKeyForPubkey s k = .error notFoundFailure ∧
    getContract s k = .error notFoundFailure ∧
    unreserveUtxo s txid vout = (.error notFoundFailure, s) ∧
    hasContract s k = false ∧
    getAddresses s = [] ∧
    getUtxos s = some [] ∧
    getContracts s none = some [] := by
  have hv : getValue s k = .error notFoundFailure := by
    unfold getValue
    rw [h]
  refine ⟨hv, hv, ?_, ?_, ?_, ?_, ?_, ?_⟩
  · unfold getContract getValueOfType
    rw [hv]
  · unfold unreserveUtxo getValueOfType getValue
    dsimp only
    rw [hu]
  · simp [hasContract, h]
  · unfold getAddresses getAllKeysInBucket getAllKeyValuesInBucket
    rw [getBucketKeys_eq_of_getItem_none _ _ ha]
    rfl
  · unfold getUtxos getAllValuesInBucketOfType getAllValuesInBucket
      getAllKeyValuesInBucket
    rw [getBucketKeys_eq_of_getItem_none _ _ hub]
    rfl
  · unfold getContracts getAllValuesInBucketOfType getAllValuesInBucket
      getAllKeyValuesInBucket
    rw [getBucketKeys_eq_of_getItem_none _ _ hcb]
    rfl

/-- Witness for C5 at the empty store. -/
theorem claim5_witness :
    (getItem emptyStore "addr1" = none ∧
      getItem emptyStore (getUtxoKey "txa" 0) = none ∧
      getItem emptyStore addressBucketTag = none ∧
      getItem emptyStore utxoBucketTag = none ∧
      getItem emptyStore contractBucketTag = none) ∧
    (getPrivKeyForAddress emptyStore "addr1" = .error notFoundFailure ∧
      getPrivKeyForPubkey emptyStore "addr1" = .error notFoundFailure ∧
      getContract emptyStore "addr1" = .error notFoundFailure ∧
      unreserveUtxo emptyStore "txa" 0 = (.error notFoundFailure, emptyStore) ∧
      hasContract emptyStore "addr1" = false ∧
      getAddresses emptyStore = [] ∧
      getUtxos emptyStore = some [] ∧
      getContracts emptyStore none = some []) :=
  ⟨by decide, claim5_absent_key_errors emptyStore "addr1" "txa" 0
    (by decide) (by decide) (by decide) (by decide) (by decide)⟩

/-- C6: `unreserveUtxo` on an absent key fails with NotFound and leaves the
store unchanged; on a stored UTXO it re-upserts under the same key the record
with its reserved flag cleared and every other field unchanged, without
changing the UTXO bucket's membership list. -/
theorem claim6_unreserveUtxo (s : Store) (txid : String) (vout : Nat)
    (u : Utxo)
    (hstored : getItem s (getUtxoKey txid vout) = some (encodeUtxo u))
    (hmem : getUtxoKey txid vout ∈ getBucketKeys s utxoBucketTag)
    (hkt : getUtxoKey txid vout ≠ utxoBucketTag) :
    (∀ s2 : Store, getItem s2 (getUtxoKey txid vout) = none →
      unreserveUtxo s2 txid vout = (.error notFoundFailure, s2)) ∧
    unreserveUtxo s txid vout =
      (.ok (), upsertInBucket s (getUtxoKey txid vout)
        (encodeUtxo { u with reserved := false }) utxoBucketTag) ∧
    getValueOfType decodeUtxo (unreserveUtxo s txid vout).2
      (getUtxoKey txid vout) = .ok { u with reserved := false } ∧
    getBucketKeys (unreserveUtxo s txid vout).2 utxoBucketTag =
      getBucketKeys s utxoBucketTag := by
  have hget : getValueOfType decodeUtxo s (getUtxoKey txid vout) = .ok u := by
    unfold getValueOfType getValue
    rw [hstored]
    simp [decodeUtxo_encodeUtxo]
  have hrun : unreserveUtxo s txid vout =
      (.ok (), upsertInBucket s (getUtxoKey txid vout)
        (encodeUtxo { u with reserved := false }) utxoBucketTag) := by
    unfold unreserveUtxo upsertValueInBucket
    dsimp only
    rw [hget]
  refine ⟨?_, hrun, ?_, ?_⟩
  · intro s2 h2
    unfold unreserveUtxo getValueOfType getValue
    dsimp only
    rw [h2]
  · rw [hrun]
    unfold getValueOfType getValue
    rw [getItem_upsertInBucket_self]
    simp [decodeUtxo_encodeUtxo]
  · rw [hrun]
    have hup : upsertInBucket s (getUtxoKey txid vout)
        (encodeUtxo { u with reserved := false }) utxoBucketTag =
        setItem s (getUtxoKey txid vout)
          (encodeUtxo { u with reserved := false }) := by
      simp only [upsertInBucket, if_pos hmem]
    rw [hup, getBucketKeys_setItem, if_neg (fun hh => hkt hh.symm)]

/-- Witness for C6 on a concretely stored reserved UTXO. -/
theorem claim6_witness :
    (getItem (upsertUtxo emptyStore ⟨"txa", 1, 7, true⟩)
        (getUtxoKey "txa" 1) = some (encodeUtxo ⟨"txa", 1, 7, true⟩) ∧
      getUtxoKey "txa" 1 ∈
        getBucketKeys (upsertUtxo emptyStore ⟨"txa", 1, 7, true⟩)
          utxoBucketTag ∧
      getUtxoKey "txa" 1 ≠ utxoBucketTag) ∧
    getValueOfType decodeUtxo
      (unreserveUtxo (upsertUtxo emptyStore ⟨"txa", 1, 7, true⟩) "txa" 1).2
      (getUtxoKey "txa" 1) = .ok ⟨"txa", 1, 7, false⟩ :=
  ⟨by decide,
    (claim6_unreserveUtxo (upsertUtxo emptyStore ⟨"txa", 1, 7, true⟩)
      "txa" 1 ⟨"txa", 1, 7, true⟩ (by decide) (by decide)
      (by decide)).2.2.1⟩

/-- C7: `getContracts` with a query keeps exactly the stored contract records
whose state is a member of the query's state set, a record being kept iff its
state matches any requested state; with no query (or a query without a states
set) it returns all stored records. -/
theorem claim7_getContracts_filter (s : Store) (sts : List ContractState)
    (all : List AnyContract) (h : getContracts s none = some all) :
    getContracts s (some ⟨some sts⟩) =
      some (all.filter (fun c => hasOneOfState (some sts) c)) ∧
    (∀ c, c ∈ all.filter (fun c => hasOneOfState (some sts) c) ↔
      c ∈ all ∧ c.state ∈ sts) ∧
    getContracts s (some ⟨none⟩) = some all := by
  unfold getContracts at h ⊢
  cases hb : getAllValuesInBucketOfType decodeContract s contractBucketTag with
  | none =>
    rw [hb] at h
    exact absurd h (by simp)
  | some l =>
    rw [hb] at h
    have hl : l = all := by
      simpa using h
    subst hl
    refine ⟨rfl, ?_, ?_⟩
    · intro c
      rw [List.mem_filter]
      simp [hasOneOfState]
    · show some (l.filter (fun x => hasOneOfState none x)) = some l
      simp [hasOneOfState]

/-- Witness for C7 on a store holding one Offered and one Signed contract. -/
theorem claim7_witness :
    getContracts (createContract (createContract emptyStore
        ⟨ContractState.Offered, "tmp-1", none⟩)
        ⟨ContractState.Signed, "tmp-2", none⟩) none =
      some [⟨ContractState.Offered, "tmp-1", none⟩,
        ⟨ContractState.Signed, "tmp-2", none⟩] ∧
    getContracts (createContract (createContract emptyStore
        ⟨ContractState.Offered, "tmp-1", none⟩)
        ⟨ContractState.Signed, "tmp-2", none⟩)
        (some ⟨some [ContractState.Offered]⟩) =
      some ([⟨ContractState.Offered, "tmp-1", none⟩,
        ⟨ContractState.Signed, "tmp-2", none⟩].filter
          (fun c => hasOneOfState (some [ContractState.Offered]) c)) :=
  ⟨by decide,
    (claim7_getContracts_filter _ [ContractState.Offered] _ (by decide)).1⟩

/-- C1: `updateContract` on an Accepted contract whose temporary id differs
from its final id leaves nothing readable under the temporary id (NotFound)
and the updated record readable under the final id; when no record was held
under the temporary id the preliminary delete is a no-op (and the operation,
being a total function here, cannot fail). -/
theorem claim1_updateContract_migration (s : Store) (c : AnyContract)
    (hacc : c.state = ContractState.Accepted)
    (hne : c.temporaryContractId ≠ getId c)
    (hnt : c.temporaryContractId ≠ contractBucketTag)
    (hclean : c.temporaryContractId ∈ getBucketKeys s contractBucketTag ∨
      getItem s c.temporaryContractId = none) :
    getContract (updateContract s c) c.temporaryContractId =
      .error notFoundFailure ∧
    getContract (updateContract s c) (getId c) = .ok c ∧
    (c.temporaryContractId ∉ getBucketKeys s contractBucketTag →
      deleteInBucket s c.temporaryContractId contractBucketTag = s) := by
  have hs1 : updateContract s c =
      upsertInBucket (deleteInBucket s c.temporaryContractId contractBucketTag)
        (getId c) (encodeContract c) contractBucketTag := by
    unfold updateContract upsertValueInBucket
    rw [if_pos hacc]
  have htempnone : getItem (deleteInBucket s c.temporaryContractId
      contractBucketTag) c.temporaryContractId = none := by
    by_cases hmem : c.temporaryContractId ∈ getBucketKeys s contractBucketTag
    · rw [getItem_deleteInBucket _ _ _ _ hmem, if_pos rfl]
    · rw [deleteInBucket_not_mem _ _ _ hmem]
      rcases hclean with h1 | h1
      · exact absurd h1 hmem
      · exact h1
  refine ⟨?_, ?_, ?_⟩
  · rw [hs1]
    have hnone : getItem (upsertInBucket
        (deleteInBucket s c.temporaryContractId contractBucketTag)
        (getId c) (encodeContract c) contractBucketTag)
        c.temporaryContractId = none := by
      rw [getItem_upsertInBucket_other _ _ _ _ _ hne hnt]
      exact htempnone
    unfold getContract getValueOfType getValue
    rw [hnone]
  · rw [hs1]
    unfold getContract getValueOfType getValue
    rw [getItem_upsertInBucket_self]
    simp [decodeContract_encodeContract]
  · intro hnm
    exact deleteInBucket_not_mem _ _ _ hnm

/-- Witness for C1 on the spec's concrete scenario: a contract stored under
"tmp-1" updated to Accepted with final id "final-1". -/
theorem claim1_witness :
    ((⟨ContractState.Accepted, "tmp-1", some "final-1"⟩ :
        AnyContract).state = ContractState.Accepted ∧
      "tmp-1" ≠ getId ⟨ContractState.Accepted, "tmp-1", some "final-1"⟩ ∧
      ("tmp-1" : String) ≠ contractBucketTag ∧
      "tmp-1" ∈ getBucketKeys (createContract emptyStore
        ⟨ContractState.Offered, "tmp-1", none⟩) contractBucketTag) ∧
    (getContract (updateContract (createContract emptyStore
        ⟨ContractState.Offered, "tmp-1", none⟩)
        ⟨ContractState.Accepted, "tmp-1", some "final-1"⟩) "tmp-1" =
      .error notFoundFailure ∧
    getContract (updateContract (createContract emptyStore
        ⟨ContractState.Offered, "tmp-1", none⟩)
        ⟨ContractState.Accepted, "tmp-1", some "final-1"⟩)
        (getId ⟨ContractState.Accepted, "tmp-1", some "final-1"⟩) =
      .ok ⟨ContractState.Accepted, "tmp-1", some "final-1"⟩) :=
  ⟨by decide,
    ⟨(claim1_updateContract_migration _ _ (by decide) (by decide) (by decide)
        (Or.inl (by decide))).1,
      (claim1_updateContract_migration _ _ (by decide) (by decide) (by decide)
        (Or.inl (by decide))).2.1⟩⟩

/-- C10: `hasContract` is a bare existence probe on the flat store — it is
true exactly when any entry is stored under the id, including bucket tag
entries of non-empty buckets, the location key after `saveLocation`, and keys
stored through non-contract buckets. -/
theorem claim10_hasContract_probe (s : Store) (contractId : String) :
    hasContract s contractId = (getItem s contractId).isSome ∧
    (∀ a pk, hasContract (upsertAddress s a pk) a = true) ∧
    (∀ p pk, hasContract (upsertKeyPair s p pk) p = true) ∧
    (∀ u : Utxo, hasContract (upsertUtxo s u)
      (getUtxoKey u.txid u.vout) = true) ∧
    (∀ a pk, hasContract (upsertAddress s a pk) addressBucketTag = true) ∧
    (∀ loc, hasContract (saveLocation s loc) locationKey = true) := by
  refine ⟨rfl, ?_, ?_, ?_, ?_, ?_⟩
  · intro a pk
    simp [hasContract, upsertAddress, getItem_upsertInBucket_self]
  · intro p pk
    simp [hasContract, upsertKeyPair, getItem_upsertInBucket_self]
  · intro u
    simp [hasContract, upsertUtxo, getItem_upsertInBucket_self]
  · intro a pk
    unfold hasContract upsertAddress
    rw [getItem_upsertInBucket]
    by_cases h1 : addressBucketTag = a
    · rw [if_pos h1]
      rfl
    · rw [if_neg h1]
      by_cases hmem : a ∈ getBucketKeys s addressBucketTag
      · rw [if_pos hmem]
        cases hg : getItem s addressBucketTag with
        | some r => simp
        | none =>
          rw [getBucketKeys_eq_of_getItem_none _ _ hg] at hmem
          exact absurd hmem (List.not_mem_nil a)
      · rw [if_neg hmem, if_pos rfl]
        rfl
  · intro loc
    simp [hasContract, saveLocation, getItem_setItem]

/-! ## Claim 9: enumeration order of upserted keys -/

theorem dedupFirstAux_eq_self :
    ∀ (l seen : List String), (∀ k ∈ l, k ∉ seen) → l.Nodup →
      dedupFirstAux seen l = l := by
  intro l
  induction l with
  | nil =>
    intro seen _ _
    rfl
  | cons k rest ih =>
    intro seen hs hnd
    unfold dedupFirstAux
    rw [if_neg (hs k (List.mem_cons_self _ _))]
    congr 1
    apply ih
    · intro x hx hmem
      rcases List.mem_cons.mp hmem with h1 | h1
      · exact (List.nodup_cons.mp hnd).1 (h1 ▸ hx)
      · exact hs x (List.mem_cons_of_mem _ hx) h1
    · exact (List.nodup_cons.mp hnd).2

theorem dedupFirst_eq_self (l : List String) (h : l.Nodup) :
    dedupFirst l = l :=
  dedupFirstAux_eq_self l [] (by simp) h

theorem jsRecordKeys_no_index (l : List String) (hnd : l.Nodup)
    (hni : ∀ k ∈ l, isArrayIndexKey k = false)
    (hpr : ∀ k ∈ l, k ≠ "__proto__") : jsRecordKeys l = l := by
  unfold jsRecordKeys
  have h0 : l.filter (fun k => k != "__proto__") = l := by
    rw [List.filter_eq_self]
    intro a ha
    simp [hpr a ha]
  rw [h0, dedupFirst_eq_self l hnd]
  dsimp only
  have h1 : l.filter (fun k => isArrayIndexKey k) = [] := by
    rw [List.filter_eq_nil_iff]
    intro a ha
    simp [hni a ha]
  have h2 : l.filter (fun k => !isArrayIndexKey k) = l := by
    rw [List.filter_eq_self]
    intro a ha
    simp [hni a ha]
  rw [h1, h2]
  simp [sortAsc]

/-- A sequence of upserts into one bucket, in order. -/
def runUpserts (s : Store) (bucketTag : String)
    (kvs : List (String × String)) : Store :=
  kvs.foldl (fun st kv => upsertInBucket st kv.1 kv.2 bucketTag) s

theorem getBucketKeys_runUpserts (bucketTag : String) :
    ∀ (kvs : List (String × String)) (s : Store),
      (∀ kv ∈ kvs, ',' ∉ kv.1.data ∧ kv.1 ≠ bucketTag ∧
        kv.1 ∉ getBucketKeys s bucketTag) →
      (kvs.map Prod.fst).Nodup →
      getBucketKeys (runUpserts s bucketTag kvs) bucketTag =
        getBucketKeys s bucketTag ++ kvs.map Prod.fst := by
  intro kvs
  induction kvs with
  | nil =>
    intro s _ _
    simp [runUpserts]
  | cons kv rest ih =>
    intro s hgood hnd
    obtain ⟨hck, hkt, hnm⟩ := hgood kv (List.mem_cons_self _ _)
    have hupk : getBucketKeys (upsertInBucket s kv.1 kv.2 bucketTag)
        bucketTag = getBucketKeys s bucketTag ++ [kv.1] := by
      rw [getBucketKeys_upsertInBucket_self s kv.1 kv.2 bucketTag hck
        (fun hh => hkt hh.symm), if_neg hnm]
    have hgood2 : ∀ kv2 ∈ rest, ',' ∉ kv2.1.data ∧ kv2.1 ≠ bucketTag ∧
        kv2.1 ∉ getBucketKeys (upsertInBucket s kv.1 kv.2 bucketTag)
          bucketTag := by
      intro kv2 h2
      obtain ⟨a, b, cnm⟩ := hgood kv2 (List.mem_cons_of_mem _ h2)
      refine ⟨a, b, ?_⟩
      rw [hupk]
      intro hmem
      rcases List.mem_append.mp hmem with h3 | h3
      · exact cnm h3
      · rw [List.mem_singleton] at h3
        exact (List.nodup_cons.mp hnd).1
          (h3 ▸ List.mem_map_of_mem Prod.fst h2)
    have hstep : runUpserts s bucketTag (kv :: rest) =
        runUpserts (upsertInBucket s kv.1 kv.2 bucketTag) bucketTag rest :=
      rfl
    rw [hstep, ih (upsertInBucket s kv.1 kv.2 bucketTag) hgood2
      (List.nodup_cons.mp hnd).2, hupk]
    simp

/-- C9 (amended): upserting pairwise-distinct keys into a bucket starting
from an empty bucket enumerates every upserted key exactly once in insertion
order, provided no key is a canonical array-index string (JavaScript object
enumeration reorders those first, numerically) and no key is "__proto__"
(assigning that computed key creates no own property, so enumeration drops
it). -/
theorem claim9_insertion_order (s : Store) (bucketTag : String)
    (kvs : List (String × String))
    (h0 : getItem s bucketTag = none)
    (hnd : (kvs.map Prod.fst).Nodup)
    (hgood : ∀ kv ∈ kvs, ',' ∉ kv.1.data ∧ kv.1 ≠ bucketTag ∧
      isArrayIndexKey kv.1 = false ∧ kv.1 ≠ "__proto__") :
    getAllKeysInBucket (runUpserts s bucketTag kvs) bucketTag =
      kvs.map Prod.fst ∧
    (bucketTag = addressBucketTag →
      getAddresses (runUpserts s bucketTag kvs) = kvs.map Prod.fst) := by
  have h00 : getBucketKeys s bucketTag = [] :=
    getBucketKeys_eq_of_getItem_none _ _ h0
  have hkeys := getBucketKeys_runUpserts bucketTag kvs s
    (fun kv hkv => ⟨(hgood kv hkv).1, (hgood kv hkv).2.1, by
      rw [h00]; exact List.not_mem_nil _⟩) hnd
  rw [h00, List.nil_append] at hkeys
  have hmain : getAllKeysInBucket (runUpserts s bucketTag kvs) bucketTag =
      kvs.map Prod.fst := by
    unfold getAllKeysInBucket getAllKeyValuesInBucket
    rw [hkeys, jsRecordKeys_no_index _ hnd (by
      intro k hk
      rcases List.mem_map.mp hk with ⟨kv, hkv, rfl⟩
      exact (hgood kv hkv).2.2.1) (by
      intro k hk
      rcases List.mem_map.mp hk with ⟨kv, hkv, rfl⟩
      exact (hgood kv hkv).2.2.2)]
    simp
  refine ⟨hmain, ?_⟩
  intro ht
  subst ht
  exact hmain

/-- C9 counterexample: upserting the distinct keys "b" then "0" into the
address bucket enumerates them as ["0", "b"], not in insertion order —
JavaScript object enumeration lists array-index keys first. -/
theorem claim9_counterexample :
    getAddresses (upsertAddress (upsertAddress emptyStore "b" "x") "0" "y") =
      ["0", "b"] ∧ (["0", "b"] : List String) ≠ ["b", "0"] := by decide

/-- Witness for the amended C9 at two concrete address upserts. -/
theorem claim9_witness :
    (getItem emptyStore addressBucketTag = none ∧
      (([("addr1", "p1"), ("addr2", "p2")] :
        List (String × String)).map Prod.fst).Nodup ∧
      ∀ kv ∈ ([("addr1", "p1"), ("addr2", "p2")] : List (String × String)),
        ',' ∉ kv.1.data ∧ kv.1 ≠ addressBucketTag ∧
        isArrayIndexKey kv.1 = false ∧ kv.1 ≠ "__proto__") ∧
    getAllKeysInBucket (runUpserts emptyStore addressBucketTag
      [("addr1", "p1"), ("addr2", "p2")]) addressBucketTag =
      ["addr1", "addr2"] :=
  ⟨by decide,
    (claim9_insertion_order emptyStore addressBucketTag
      [("addr1", "p1"), ("addr2", "p2")] (by decide) (by decide)
      (by decide)).1⟩

/-! ## Claim 2: the pairing invariant over façade traces -/

/-- The state-changing façade operations (the read-only operations do not
write to the store). -/
inductive Op
  | upsertAddress (address privkey : String)
  | deleteAddress (address : String)
  | upsertKeyPair (publicKey privkey : String)
  | upsertUtxo (u : Utxo)
  | deleteUtxo (u : Utxo)
  | unreserveUtxo (txid : String) (vout : Nat)
  | createContract (c : AnyContract)
  | updateContract (c : AnyContract)
  | deleteContract (contractId : String)
  | saveLocation (location : String)

def step (s : Store) : Op → Store
  | .upsertAddress a pk => upsertAddress s a pk
  | .deleteAddress a => deleteAddress s a
  | .upsertKeyPair p pk => upsertKeyPair s p pk
  | .upsertUtxo u => upsertUtxo s u
  | .deleteUtxo u => deleteUtxo s u
  | .unreserveUtxo txid vout => (unreserveUtxo s txid vout).2
  | .createContract c => createContract s c
  | .updateContract c => updateContract s c
  | .deleteContract cid => deleteContract s cid
  | .saveLocation loc => saveLocation s loc

def run (s : Store) (ops : List Op) : Store := ops.foldl step s

def bucketTags : List String :=
  [addressBucketTag, utxoBucketTag, contractBucketTag, keyPairBucketTag]

/-- The implicit preconditions on a key used through a bucket: it contains no
delimiter and does not collide with a reserved key. -/
def goodKey (k : String) : Prop :=
  ',' ∉ k.data ∧ k ∉ bucketTags ∧ k ≠ locationKey

instance (k : String) : Decidable (goodKey k) := by
  unfold goodKey
  infer_instance

/-- The (bucket tag, member key) pairs an operation touches. -/
def Op.uses : Op → List (String × String)
  | .upsertAddress a _ => [(addressBucketTag, a)]
  | .deleteAddress a => [(addressBucketTag, a)]
  | .upsertKeyPair p _ => [(keyPairBucketTag, p)]
  | .upsertUtxo u => [(utxoBucketTag, getUtxoKey u.txid u.vout)]
  | .deleteUtxo u => [(utxoBucketTag, getUtxoKey u.txid u.vout)]
  | .unreserveUtxo txid vout => [(utxoBucketTag, getUtxoKey txid vout)]
  | .createContract c => [(contractBucketTag, getId c)]
  | .updateContract c =>
    [(contractBucketTag, getId c),
      (contractBucketTag, c.temporaryContractId)]
  | .deleteContract cid => [(contractBucketTag, cid)]
  | .saveLocation _ => []

/-- An operation is well-keyed for a bucket assignment `bkt`: each key it
touches is a good key belonging (via `bkt`) to the bucket it is used with —
in particular keys are not shared across buckets. -/
def goodOp (bkt : String → String) (op : Op) : Prop :=
  ∀ p ∈ op.uses, goodKey p.2 ∧ bkt p.2 = p.1

instance (bkt : String → String) (op : Op) : Decidable (goodOp bkt op) := by
  unfold goodOp
  infer_instance

/-- The pairing invariant, strengthened for induction: each bucket's
membership list is duplicate-free and every member is a good key of that
bucket holding a value entry; conversely every value entry other than the
reserved keys is listed in its own bucket. -/
def Inv (bkt : String → String) (s : Store) : Prop :=
  (∀ t ∈ bucketTags, (getBucketKeys s t).Nodup ∧
    ∀ k ∈ getBucketKeys s t,
      goodKey k ∧ bkt k = t ∧ (getItem s k).isSome = true) ∧
  (∀ k : String, (getItem s k).isSome = true → k ∉ bucketTags →
    k ≠ locationKey → bkt k ∈ bucketTags ∧ k ∈ getBucketKeys s (bkt k))

theorem Inv_upsertInBucket (bkt : String → String) (s : Store)
    (key v t : String) (hInv : Inv bkt s) (hk : goodKey key)
    (hb : bkt key = t) (ht : t ∈ bucketTags) :
    Inv bkt (upsertInBucket s key v t) := by
  obtain ⟨hDir1, hDir2⟩ := hInv
  obtain ⟨hkc, hknt, hknl⟩ := hk
  have htk : t ≠ key := by
    intro hh
    rw [hh] at ht
    exact hknt ht
  have hkeys : ∀ t2, t2 ≠ key →
      getBucketKeys (upsertInBucket s key v t) t2 =
        if t2 = t ∧ key ∉ getBucketKeys s t
        then getBucketKeys s t ++ [key] else getBucketKeys s t2 := by
    intro t2 ht2k
    by_cases he : t2 = t
    · subst he
      rw [getBucketKeys_upsertInBucket_self s key v t2 hkc ht2k]
      by_cases hmem : key ∈ getBucketKeys s t2
      · rw [if_pos hmem, if_neg (fun hc => hc.2 hmem)]
      · rw [if_neg hmem, if_pos ⟨rfl, hmem⟩]
    · rw [getBucketKeys_upsertInBucket_other s key v t t2 ht2k he,
        if_neg (fun hc => he hc.1)]
  have hval : ∀ k : String, k ∉ bucketTags → (getItem s k).isSome = true →
      (getItem (upsertInBucket s key v t) k).isSome = true := by
    intro k hkt2 hsome
    rw [getItem_upsertInBucket]
    by_cases h1 : k = key
    · rw [if_pos h1]
      rfl
    · rw [if_neg h1]
      by_cases hmem : key ∈ getBucketKeys s t
      · rw [if_pos hmem]
        exact hsome
      · have hkt3 : ¬k = t := by
          intro hh
          rw [hh] at hkt2
          exact hkt2 ht
        rw [if_neg hmem, if_neg hkt3]
        exact hsome
  have hvalrev : ∀ k : String,
      (getItem (upsertInBucket s key v t) k).isSome = true →
      k ≠ key → k ≠ t → (getItem s k).isSome = true := by
    intro k hsome h1 h2
    rw [getItem_upsertInBucket, if_neg h1] at hsome
    by_cases hmem : key ∈ getBucketKeys s t
    · rwa [if_pos hmem] at hsome
    · rwa [if_neg hmem, if_neg h2] at hsome
  constructor
  · intro t2 ht2
    have ht2k : t2 ≠ key := fun hh => hknt (hh ▸ ht2)
    rw [hkeys t2 ht2k]
    by_cases hcond : t2 = t ∧ key ∉ getBucketKeys s t
    · obtain ⟨he, hnm⟩ := hcond
      subst he
      rw [if_pos ⟨rfl, hnm⟩]
      obtain ⟨hnd, hmemp⟩ := hDir1 t2 ht2
      refine ⟨?_, ?_⟩
      · simp [List.nodup_append, hnd, hnm]
      · intro k hkm
        rcases List.mem_append.mp hkm with hkl | hkr
        · obtain ⟨g1, g2, g3⟩ := hmemp k hkl
          exact ⟨g1, g2, hval k g1.2.1 g3⟩
        · rw [List.mem_singleton] at hkr
          subst hkr
          refine ⟨⟨hkc, hknt, hknl⟩, hb, ?_⟩
          rw [getItem_upsertInBucket_self]
          rfl
    · rw [if_neg hcond]
      obtain ⟨hnd, hmemp⟩ := hDir1 t2 ht2
      refine ⟨hnd, ?_⟩
      intro k hkm
      obtain ⟨g1, g2, g3⟩ := hmemp k hkm
      by_cases hkey : k = key
      · subst hkey
        refine ⟨g1, g2, ?_⟩
        rw [getItem_upsertInBucket_self]
        rfl
      · exact ⟨g1, g2, hval k g1.2.1 g3⟩
  · intro k hsome hknt2 hknl2
    by_cases h1 : k = key
    · subst h1
      refine ⟨by rw [hb]; exact ht, ?_⟩
      rw [hb, hkeys t htk]
      by_cases hmem : k ∈ getBucketKeys s t
      · rw [if_neg (fun hc => hc.2 hmem)]
        exact hmem
      · rw [if_pos ⟨rfl, hmem⟩]
        exact List.mem_append_right _ (List.mem_singleton_self _)
    · have h2 : k ≠ t := fun hh => hknt2 (hh ▸ ht)
      have hold := hvalrev k hsome h1 h2
      obtain ⟨hbt, hmemold⟩ := hDir2 k hold hknt2 hknl2
      refine ⟨hbt, ?_⟩
      have hbk : bkt k ≠ key := fun hh => hknt (hh ▸ hbt)
      rw [hkeys (bkt k) hbk]
      by_cases hcond : bkt k = t ∧ key ∉ getBucketKeys s t
      · rw [if_pos hcond]
        refine List.mem_append_left _ ?_
        rw [← hcond.1]
        exact hmemold
      · rw [if_neg hcond]
        exact hmemold

theorem Inv_deleteInBucket (bkt : String → String) (s : Store)
    (key t : String) (hInv : Inv bkt s) (hk : goodKey key)
    (hb : bkt key = t) (ht : t ∈ bucketTags) :
    Inv bkt (deleteInBucket s key t) := by
  by_cases hmem : key ∈ getBucketKeys s t
  case neg =>
    rwa [deleteInBucket_not_mem s key t hmem]
  obtain ⟨hDir1, hDir2⟩ := hInv
  obtain ⟨hkc, hknt, hknl⟩ := hk
  have htk : t ≠ key := by
    intro hh
    rw [hh] at ht
    exact hknt ht
  have hkeys : ∀ t2, t2 ≠ key →
      getBucketKeys (deleteInBucket s key t) t2 =
        if t2 = t then (getBucketKeys s t).erase key
        else getBucketKeys s t2 := by
    intro t2 h2
    by_cases he : t2 = t
    · subst he
      rw [getBucketKeys_deleteInBucket_self s key t2 hmem h2, if_pos rfl]
    · rw [getBucketKeys_deleteInBucket_other s key t t2 h2 he, if_neg he]
  have hval : ∀ k : String, k ≠ key → k ∉ bucketTags →
      getItem (deleteInBucket s key t) k = getItem s k := by
    intro k h1 h2
    have h3 : ¬k = t := by
      intro hh
      rw [hh] at h2
      exact h2 ht
    rw [getItem_deleteInBucket s key t k hmem, if_neg h1, if_neg h3]
  constructor
  · intro t2 ht2
    have ht2k : t2 ≠ key := fun hh => hknt (hh ▸ ht2)
    rw [hkeys t2 ht2k]
    by_cases he : t2 = t
    · subst he
      rw [if_pos rfl]
      obtain ⟨hnd, hmemp⟩ := hDir1 t2 ht2
      refine ⟨hnd.erase key, ?_⟩
      intro k hkm
      have hkparts := (hnd.mem_erase_iff).mp hkm
      obtain ⟨g1, g2, g3⟩ := hmemp k hkparts.2
      refine ⟨g1, g2, ?_⟩
      rw [hval k hkparts.1 g1.2.1]
      exact g3
    · rw [if_neg he]
      obtain ⟨hnd, hmemp⟩ := hDir1 t2 ht2
      refine ⟨hnd, ?_⟩
      intro k hkm
      obtain ⟨g1, g2, g3⟩ := hmemp k hkm
      have hkne : k ≠ key := by
        intro hh
        exact he (by rw [← g2, hh, hb])
      refine ⟨g1, g2, ?_⟩
      rw [hval k hkne g1.2.1]
      exact g3
  · intro k hsome hknt2 hknl2
    have hkne : k ≠ key := by
      intro hh
      subst hh
      rw [getItem_deleteInBucket s k t k hmem, if_pos rfl] at hsome
      simp at hsome
    have hold : (getItem s k).isSome = true := by
      rw [hval k hkne hknt2] at hsome
      exact hsome
    obtain ⟨hbt, hmemold⟩ := hDir2 k hold hknt2 hknl2
    refine ⟨hbt, ?_⟩
    have hbk : bkt k ≠ key := fun hh => hknt (hh ▸ hbt)
    rw [hkeys (bkt k) hbk]
    by_cases he : bkt k = t
    · rw [if_pos he]
      rw [he] at hmemold
      exact (List.mem_erase_of_ne hkne).mpr hmemold
    · rw [if_neg he]
      exact hmemold

theorem Inv_saveLocation (bkt : String → String) (s : Store) (loc : String)
    (hInv : Inv bkt s) : Inv bkt (saveLocation s loc) := by
  obtain ⟨hDir1, hDir2⟩ := hInv
  have hloc : locationKey ∉ bucketTags := by decide
  have hkeys : ∀ t2 ∈ bucketTags,
      getBucketKeys (saveLocation s loc) t2 = getBucketKeys s t2 := by
    intro t2 ht2
    have hne : t2 ≠ locationKey := by
      intro hh
      rw [hh] at ht2
      exact hloc ht2
    unfold saveLocation
    rw [getBucketKeys_setItem, if_neg hne]
  constructor
  · intro t2 ht2
    rw [hkeys t2 ht2]
    obtain ⟨hnd, hmemp⟩ := hDir1 t2 ht2
    refine ⟨hnd, ?_⟩
    intro k hkm
    obtain ⟨g1, g2, g3⟩ := hmemp k hkm
    refine ⟨g1, g2, ?_⟩
    unfold saveLocation
    rw [getItem_setItem, if_neg g1.2.2]
    exact g3
  · intro k hsome hknt2 hknl2
    unfold saveLocation at hsome
    rw [getItem_setItem, if_neg hknl2] at hsome
    obtain ⟨hbt, hmemold⟩ := hDir2 k hsome hknt2 hknl2
    refine ⟨hbt, ?_⟩
    rw [hkeys (bkt k) hbt]
    exact hmemold

theorem Inv_step (bkt : String → String) (s : Store) (op : Op)
    (hop : goodOp bkt op) (hInv : Inv bkt s) : Inv bkt (step s op) := by
  cases op with
  | upsertAddress a pk =>
    have h := hop (addressBucketTag, a) (List.mem_singleton_self _)
    exact Inv_upsertInBucket bkt s a pk addressBucketTag hInv h.1 h.2
      (by decide)
  | deleteAddress a =>
    have h := hop (addressBucketTag, a) (List.mem_singleton_self _)
    exact Inv_deleteInBucket bkt s a addressBucketTag hInv h.1 h.2
      (by decide)
  | upsertKeyPair p pk =>
    have h := hop (keyPairBucketTag, p) (List.mem_singleton_self _)
    exact Inv_upsertInBucket bkt s p pk keyPairBucketTag hInv h.1 h.2
      (by decide)
  | upsertUtxo u =>
    have h := hop (utxoBucketTag, getUtxoKey u.txid u.vout)
      (List.mem_singleton_self _)
    exact Inv_upsertInBucket bkt s (getUtxoKey u.txid u.vout) (encodeUtxo u)
      utxoBucketTag hInv h.1 h.2 (by decide)
  | deleteUtxo u =>
    have h := hop (utxoBucketTag, getUtxoKey u.txid u.vout)
      (List.mem_singleton_self _)
    exact Inv_deleteInBucket bkt s (getUtxoKey u.txid u.vout) utxoBucketTag
      hInv h.1 h.2 (by decide)
  | unreserveUtxo txid vout =>
    have h := hop (utxoBucketTag, getUtxoKey txid vout)
      (List.mem_singleton_self _)
    show Inv bkt (unreserveUtxo s txid vout).2
    unfold unreserveUtxo
    dsimp only
    cases hres : getValueOfType decodeUtxo s (getUtxoKey txid vout) with
    | error e => exact hInv
    | ok u =>
      exact Inv_upsertInBucket bkt s (getUtxoKey txid vout)
        (encodeUtxo { u with reserved := false }) utxoBucketTag hInv
        h.1 h.2 (by decide)
  | createContract c =>
    have h := hop (contractBucketTag, getId c) (List.mem_singleton_self _)
    exact Inv_upsertInBucket bkt s (getId c) (encodeContract c)
      contractBucketTag hInv h.1 h.2 (by decide)
  | updateContract c =>
    have h1 := hop (contractBucketTag, getId c) (List.mem_cons_self _ _)
    have h2 := hop (contractBucketTag, c.temporaryContractId)
      (List.mem_cons_of_mem _ (List.mem_singleton_self _))
    show Inv bkt (updateContract s c)
    unfold updateContract upsertValueInBucket
    dsimp only
    by_cases hacc : c.state = ContractState.Accepted
    · rw [if_pos hacc]
      exact Inv_upsertInBucket bkt _ (getId c) (encodeContract c)
        contractBucketTag
        (Inv_deleteInBucket bkt s c.temporaryContractId contractBucketTag
          hInv h2.1 h2.2 (by decide))
        h1.1 h1.2 (by decide)
    · rw [if_neg hacc]
      exact Inv_upsertInBucket bkt s (getId c) (encodeContract c)
        contractBucketTag hInv h1.1 h1.2 (by decide)
  | deleteContract cid =>
    have h := hop (contractBucketTag, cid) (List.mem_singleton_self _)
    exact Inv_deleteInBucket bkt s cid contractBucketTag hInv h.1 h.2
      (by decide)
  | saveLocation loc =>
    exact Inv_saveLocation bkt s loc hInv

theorem Inv_run (bkt : String → String) :
    ∀ (ops : List Op) (s : Store), (∀ op ∈ ops, goodOp bkt op) →
      Inv bkt s → Inv bkt (run s ops) := by
  intro ops
  induction ops with
  | nil =>
    intro s _ h
    exact h
  | cons op rest ih =>
    intro s hops hInv
    exact ih (step s op) (fun o ho => hops o (List.mem_cons_of_mem _ ho))
      (Inv_step bkt s op (hops op (List.mem_cons_self _ _)) hInv)

theorem Inv_emptyStore (bkt : String → String) : Inv bkt emptyStore := by
  constructor
  · intro t ht
    have hkeys : getBucketKeys emptyStore t = [] := rfl
    rw [hkeys]
    refine ⟨List.nodup_nil, ?_⟩
    intro k hk
    exact absurd hk (List.not_mem_nil k)
  · intro k hsome _ _
    simp [emptyStore, getItem] at hsome

/-- C2 (amended): after any sequence of façade operations from the empty
store whose keys contain no delimiter, avoid the reserved keys (bucket tags
and the location key), and are not shared across buckets, every bucket
satisfies the pairing invariant: every membership-list key has a value entry,
and every value entry other than bucket tag entries and the location key
appears in a bucket's membership list. -/
theorem claim2_pairing_invariant (bkt : String → String) (ops : List Op)
    (hops : ∀ op ∈ ops, goodOp bkt op) :
    ∀ t ∈ bucketTags,
      (∀ k ∈ getBucketKeys (run emptyStore ops) t,
        (getItem (run emptyStore ops) k).isSome = true) ∧
      (∀ k : String, (getItem (run emptyStore ops) k).isSome = true →
        k ∉ bucketTags → k ≠ locationKey →
        ∃ t2 ∈ bucketTags, k ∈ getBucketKeys (run emptyStore ops) t2) := by
  have hInv := Inv_run bkt ops emptyStore hops (Inv_emptyStore bkt)
  intro t ht
  refine ⟨?_, ?_⟩
  · intro k hk
    exact ((hInv.1 t ht).2 k hk).2.2
  · intro k hsome hknt hknl
    obtain ⟨hbt, hmem⟩ := hInv.2 k hsome hknt hknl
    exact ⟨bkt k, hbt, hmem⟩

/-- C2 counterexample: one façade operation whose key contains the list
delimiter leaves the address bucket's membership list containing "a" while
no value entry is stored under "a" — the pairing invariant fails after this
sequence. -/
theorem claim2_counterexample :
    "a" ∈ getBucketKeys (run emptyStore [Op.upsertAddress "a,b" "pk"])
      addressBucketTag ∧
    getItem (run emptyStore [Op.upsertAddress "a,b" "pk"]) "a" = none := by
  decide

/-- Witness for the amended C2 over a concrete three-operation trace. -/
theorem claim2_witness :
    (∀ op ∈ ([Op.upsertAddress "addr1" "p1",
        Op.upsertUtxo ⟨"txa", 0, 5, false⟩,
        Op.deleteAddress "addr1"] : List Op),
      goodOp (fun k => if k = "addr1" then addressBucketTag
        else utxoBucketTag) op) ∧
    (∀ t ∈ bucketTags,
      (∀ k ∈ getBucketKeys (run emptyStore [Op.upsertAddress "addr1" "p1",
          Op.upsertUtxo ⟨"txa", 0, 5, false⟩,
          Op.deleteAddress "addr1"]) t,
        (getItem (run emptyStore [Op.upsertAddress "addr1" "p1",
          Op.upsertUtxo ⟨"txa", 0, 5, false⟩,
          Op.deleteAddress "addr1"]) k).isSome = true) ∧
      (∀ k : String, (getItem (run emptyStore
            [Op.upsertAddress "addr1" "p1",
            Op.upsertUtxo ⟨"txa", 0, 5, false⟩,
            Op.deleteAddress "addr1"]) k).isSome = true →
        k ∉ bucketTags → k ≠ locationKey →
        ∃ t2 ∈ bucketTags, k ∈ getBucketKeys (run emptyStore
          [Op.upsertAddress "addr1" "p1",
          Op.upsertUtxo ⟨"txa", 0, 5, false⟩,
          Op.deleteAddress "addr1"]) t2)) :=
  ⟨by decide,
    claim2_pairing_invariant
      (fun k => if k = "addr1" then addressBucketTag else utxoBucketTag)
      [Op.upsertAddress "addr1" "p1", Op.upsertUtxo ⟨"txa", 0, 5, false⟩,
        Op.deleteAddress "addr1"] (by decide)⟩

end LocalRepository
